import Mathlib

/- Shallow embedding of src/pkg/awsmod/batch.go (the s3 bulk object-deletion
   engine).  Conventions of the embedding:

   * Go `*string` fields are modelled as `Option String` (nil ↦ none).  The
     nil-aware pointer comparisons in `hasParity` are translated by case
     analysis on the options: when both pointers are non-nil the pointed-to
     values are compared, otherwise the pointers themselves are compared,
     which for at-least-one-nil means "both nil".
   * The DeleteObjects S3 client is modelled as a deterministic oracle
     indexed by the number of calls made before the current one, so stateful
     clients are covered (control flow never depends on call results).
   * A BatchDeleteIterator is modelled by the trace it produces: the finite
     list of candidates returned by successive Next/DeleteObject calls, plus
     the value of Err() observed once Next has returned false.
   * The embedding additionally records the sequence of DeleteObjects calls
     and After-hook invocations as an event trace; this instrumentation does
     not alter data or control flow.
   * The functional-options varargs (`opts ...func(*s3.DeleteObjectsInput)`,
     `options ...func(*BatchDelete)`) are modelled as absent (no options
     passed), which is how the engine is driven in this repository. -/

namespace Awsmod

/-- Error values produced by the code in batch.go: either an abstract error
value (transport, iterator or hook errors) or an awserr-style coded error as
built by `awserr.New` in `deleteBatch` (the wrapped inner error of that call
is always Go `nil` there, so it is not represented). -/
inductive GoErr where
  | simple (msg : String)
  | aws (code message : String)
deriving DecidableEq, Repr

/-- awsmod.Error: the original error, bucket, and key of the operation that
failed during batch operations. -/
structure Error where
  origErr : GoErr
  bucket : Option String
  key : Option String
deriving DecidableEq, Repr

/-- awsmod.newError. -/
def newError (err : GoErr) (bucket key : Option String) : Error :=
  { origErr := err, bucket := bucket, key := key }

/-- awsmod.BatchError (code and message are unexported fields in Go). -/
structure BatchError where
  errors : List Error
  code : String
  message : String
deriving DecidableEq, Repr

/-- awsmod.NewBatchError. -/
def NewBatchError (code message : String) (err : List Error) : BatchError :=
  { errors := err, code := code, message := message }

/-- s3types.ObjectIdentifier (the fields used by batch.go). -/
structure ObjectIdentifier where
  key : Option String
  versionId : Option String
deriving DecidableEq, Repr

/-- s3.DeleteObjectInput (the fields read by batch.go: Bucket, Key,
VersionId, MFA, RequestPayer; RequestPayer is a Go string type whose zero
value is the empty string). -/
structure DeleteObjectInput where
  bucket : Option String
  key : Option String
  versionId : Option String
  mfa : Option String
  requestPayer : String
deriving DecidableEq, Repr

/-- s3.DeleteObjectsInput: Bucket, MFA, RequestPayer plus
`Delete.Objects`, the list of object identifiers of the call. -/
structure DeleteObjectsInput where
  bucket : Option String
  mfa : Option String
  requestPayer : String
  objects : List ObjectIdentifier
deriving DecidableEq, Repr

/-- s3types.Error as read by deleteBatch: Key, Code, Message. -/
structure S3DeleteError where
  key : Option String
  code : Option String
  message : Option String
deriving DecidableEq, Repr

/-- s3.DeleteObjectsOutput (the field read by deleteBatch). -/
structure DeleteObjectsOutput where
  errors : List S3DeleteError
deriving DecidableEq, Repr

/-- awsmod.BatchDeleteObject: the delete-object input plus the optional
After hook.  A Go `func() error` hook is modelled by the value it returns
when invoked: `none` models a nil hook, `some none` a hook returning nil,
`some (some e)` a hook returning error `e`. -/
structure BatchDeleteObject where
  object : DeleteObjectInput
  after : Option (Option GoErr)
deriving DecidableEq, Repr

/-- The DeleteObjectsAPIClient interface: given the number of DeleteObjects
calls already made and the input of the current call, the result is either a
call-level error or a DeleteObjectsOutput. -/
abbrev Client := Nat → DeleteObjectsInput → Except GoErr DeleteObjectsOutput

/-- awsmod.BatchDelete: the s3 client plus the batch size (a Go int). -/
structure BatchDelete where
  client : Client
  batchSize : Int

/-- awsmod.DefaultBatchSize. -/
def DefaultBatchSize : Int := 1000

/-- awsmod.NewBatchDeleteWithClient: starts from DefaultBatchSize and
overwrites it with the argument whenever the argument is not -1. -/
def NewBatchDeleteWithClient (s3client : Client) (batchSize : Int) : BatchDelete :=
  let svc : BatchDelete := { client := s3client, batchSize := DefaultBatchSize }
  if batchSize ≠ -1 then { svc with batchSize := batchSize } else svc

/-- awsmod.initDeleteObjectsInput: seeds a DeleteObjectsInput from one
DeleteObjectInput, with an empty object list. -/
def initDeleteObjectsInput (o : DeleteObjectInput) : DeleteObjectsInput :=
  { bucket := o.bucket, mfa := o.mfa, requestPayer := o.requestPayer, objects := [] }

/-- awsmod.ErrDeleteBatchFailCode. -/
def ErrDeleteBatchFailCode : String := "DeleteBatchError"

/-- awsmod.errDefaultDeleteBatchMessage. -/
def errDefaultDeleteBatchMessage : String := "failed to delete"

/-- awsmod.hasParity, translated clause by clause.  In Go, each of Bucket
and MFA is compared by value when both pointers are non-nil, and by pointer
otherwise (which, given that at least one side is nil, succeeds exactly when
both are nil).  RequestPayer is a string compared by value in both branches
of its clause. -/
def hasParity (o1 : DeleteObjectsInput) (o2 : BatchDeleteObject) : Bool :=
  let bucketOk : Bool :=
    match o1.bucket, o2.object.bucket with
    | some b1, some b2 => b1 == b2
    | none, none => true
    | _, _ => false
  let mfaOk : Bool :=
    match o1.mfa, o2.object.mfa with
    | some m1, some m2 => m1 == m2
    | none, none => true
    | _, _ => false
  let payerOk : Bool :=
    if o1.requestPayer != "" && o2.object.requestPayer != "" then
      o1.requestPayer == o2.object.requestPayer
    else
      o1.requestPayer == o2.object.requestPayer
  bucketOk && mfaOk && payerOk

/-- The ObjectIdentifier built from a candidate at the two append sites of
BatchDelete.Delete: `s3types.ObjectIdentifier{Key: o.Object.Key, VersionId:
o.Object.VersionId}`. -/
def toIdent (o : BatchDeleteObject) : ObjectIdentifier :=
  { key := o.object.key, versionId := o.object.versionId }

/-- Instrumentation: one event per DeleteObjects call (recording the call
index, the input issued, and the candidates of the batch) and one event per
After-hook invocation. -/
inductive Event where
  | call (idx : Nat) (input : DeleteObjectsInput) (objects : List BatchDeleteObject)
  | hook (o : BatchDeleteObject)
deriving DecidableEq, Repr

/-- The Error contributed by one candidate's After hook in deleteBatch:
nothing for a nil hook or a hook returning nil, and
`newError(err, object.Object.Bucket, object.Object.Key)` for a hook
returning `err`. -/
def hookError (o : BatchDeleteObject) : Option Error :=
  match o.after with
  | none => none
  | some none => none
  | some (some e) => some (newError e o.object.bucket o.object.key)

/-- awsmod.deleteBatch: issues the DeleteObjects call (as call number `k`),
collects one Error per batch member on a call-level failure, or one Error
per server-reported failing key (with defaulted code and message) on a
partial success, then runs every candidate's After hook in order, collecting
an Error for each hook that fails.  Also returns the event trace of the
call. -/
def deleteBatch (d : BatchDelete) (k : Nat) (input : DeleteObjectsInput)
    (objects : List BatchDeleteObject) : List Error × List Event :=
  let callErrs : List Error :=
    match d.client k input with
    | Except.error err => input.objects.map (fun oi => newError err input.bucket oi.key)
    | Except.ok result =>
        result.errors.map (fun re =>
          newError (GoErr.aws (re.code.getD ErrDeleteBatchFailCode)
              (re.message.getD errDefaultDeleteBatchMessage))
            input.bucket re.key)
  let hookErrs : List Error := objects.filterMap hookError
  (callErrs ++ hookErrs,
   Event.call k input objects :: (objects.filter (fun o => o.after.isSome)).map Event.hook)

/-- The body of one iteration of BatchDelete.Delete's loop, for candidate
`o` with open batch state (`objects`, `input`): seed the input from `o` when
no batch is open, compute parity, append `o`'s identifier and `o` when
parity holds, and when the batch reached BatchSize or parity broke, flush —
returning the batch to execute together with the next open state, which
after a parity break is a fresh batch seeded with `o` and its identifier.
The DeleteObjects call itself is issued by the caller between the returned
flush decision and continuing the loop (exactly where Go places it; the
post-flush state never depends on the call's result). -/
def deleteStep (bs : Int) (objects : List BatchDeleteObject)
    (input : Option DeleteObjectsInput) (o : BatchDeleteObject) :
    Option (DeleteObjectsInput × List BatchDeleteObject) ×
      List BatchDeleteObject × Option DeleteObjectsInput :=
  let input0 :=
    match input with
    | none => initDeleteObjectsInput o.object
    | some i => i
  let parity := hasParity input0 o
  let input1 :=
    if parity then { input0 with objects := input0.objects ++ [toIdent o] } else input0
  let objects1 := if parity then objects ++ [o] else objects
  if (input1.objects.length : Int) = bs ∨ parity = false then
    if parity = false then
      (some (input1, objects1), [o],
       some { initDeleteObjectsInput o.object with objects := [toIdent o] })
    else
      (some (input1, objects1), [], none)
  else
    (none, objects1, some input1)

/-- The loop of BatchDelete.Delete, recursing over the candidate trace.
State: accumulated errors, the open batch's candidates (`objects`), the open
DeleteObjectsInput (`input`, none when no batch is open), the number of
DeleteObjects calls made so far, and the event trace. -/
def deleteLoop (d : BatchDelete) :
    List BatchDeleteObject → List Error → List BatchDeleteObject →
    Option DeleteObjectsInput → Nat → List Event →
    List Error × List BatchDeleteObject × Option DeleteObjectsInput × Nat × List Event
  | [], errs, objects, input, k, events => (errs, objects, input, k, events)
  | o :: rest, errs, objects, input, k, events =>
    match deleteStep d.batchSize objects input o with
    | (none, objects1, input1) => deleteLoop d rest errs objects1 input1 k events
    | (some fl, objects1, input1) =>
      let b := deleteBatch d k fl.1 fl.2
      deleteLoop d rest (errs ++ b.1) objects1 input1 (k + 1) (events ++ b.2)

/-- The outcome of one BatchDelete.Delete run: the returned value (`none`
for Go nil, `some` of the BatchError otherwise), the collected errors, and
the event trace. -/
structure DeleteResult where
  ret : Option BatchError
  errs : List Error
  events : List Event
deriving DecidableEq, Repr

/-- awsmod.BatchDelete.Delete over an iterator trace: runs the batching
loop over the candidates, records the iterator's Err() (if non-nil) as one
Error with nil bucket and key, flushes the still-open batch if it has at
least one member, and returns a BatchError exactly when errors were
collected. -/
def BatchDelete.Delete (d : BatchDelete) (cands : List BatchDeleteObject)
    (iterErr : Option GoErr) : DeleteResult :=
  match deleteLoop d cands [] [] none 0 [] with
  | (errs0, objects, input, k, events0) =>
    let errs1 :=
      match iterErr with
      | some e => errs0 ++ [newError e none none]
      | none => errs0
    let step2 :=
      match input with
      | some inp =>
          if 0 < inp.objects.length then
            let b := deleteBatch d k inp objects
            (errs1 ++ b.1, events0 ++ b.2)
          else (errs1, events0)
      | none => (errs1, events0)
    { ret :=
        if step2.1.length > 0 then
          some (NewBatchError "BatchedDeleteIncomplete"
            "some objects have failed to be deleted." step2.1)
        else none,
      errs := step2.1,
      events := step2.2 }

/-- s3types.Object (the field read by batch.go). -/
structure S3Object where
  key : Option String
deriving DecidableEq, Repr

/-- The s3.ListObjectsV2Paginator, modelled by the list of page results it
will hand out: each remote page fetch either fails or returns the page's
Contents.  `HasMorePages` holds while undelivered pages remain. -/
structure ListPaginator where
  pages : List (Except GoErr (List S3Object))
deriving Repr

/-- Paginator.HasMorePages. -/
def ListPaginator.hasMorePages (p : ListPaginator) : Bool :=
  !p.pages.isEmpty

/-- Paginator.NextPage: delivers the next page result and the advanced
paginator (only called under a HasMorePages guard; the empty case is
unreachable there). -/
def ListPaginator.nextPage (p : ListPaginator) :
    Except GoErr (List S3Object) × ListPaginator :=
  match p.pages with
  | [] => (Except.error (GoErr.simple "no more pages"), { pages := [] })
  | pg :: rest => (pg, { pages := rest })

/-- awsmod.DeleteListIterator: bucket, paginator, buffered objects of the
current page, and the last error from Next. -/
structure DeleteListIterator where
  bucket : Option String
  paginator : ListPaginator
  objects : List S3Object
  err : Option GoErr
deriving Repr

/-- awsmod.NewDeleteListIterator (without functional options): fresh
iterator with an empty buffer and no error. -/
def NewDeleteListIterator (bucket : Option String) (p : ListPaginator) :
    DeleteListIterator :=
  { bucket := bucket, paginator := p, objects := [], err := none }

/-- awsmod.DeleteListIterator.Next, translated clause by clause: consume
the current buffered object; if the buffer still holds one, answer true;
otherwise, if no pages remain answer false, else fetch the next page —
recording the error and answering false on a failed fetch, and otherwise
installing the page's contents as the buffer and answering whether that
page is non-empty. -/
def DeleteListIterator.next (it : DeleteListIterator) :
    Bool × DeleteListIterator :=
  let fetch : DeleteListIterator → Bool × DeleteListIterator := fun it =>
    if it.paginator.hasMorePages = false then
      (false, it)
    else
      match it.paginator.nextPage with
      | (Except.error e, p2) => (false, { it with paginator := p2, err := some e })
      | (Except.ok contents, p2) =>
          (!contents.isEmpty, { it with paginator := p2, objects := contents })
  if !it.objects.isEmpty then
    let it1 := { it with objects := it.objects.tail }
    if !it1.objects.isEmpty then (true, it1) else fetch it1
  else fetch it

/-- awsmod.DeleteListIterator.Err. -/
def DeleteListIterator.lastErr (it : DeleteListIterator) : Option GoErr :=
  it.err

/- ---------------------------------------------------------------------
   Derived descriptions of the loop used to state and prove the claims.
   `assemble` re-expresses the batching decisions of `deleteLoop` (which
   never depend on the client): it returns the flushed batches in order
   together with the final open state.  The lemma `deleteLoop_eq_assemble`
   below proves that `deleteLoop` is exactly `assemble` plus the client
   calls and the error/event bookkeeping.
   --------------------------------------------------------------------- -/

/-- The batching decisions of the Delete loop: the list of (input,
candidates) batches flushed inside the loop, in order, followed by the
final open input and its candidates. -/
def assemble (bs : Int) :
    List BatchDeleteObject → List BatchDeleteObject → Option DeleteObjectsInput →
    List (DeleteObjectsInput × List BatchDeleteObject) ×
      Option DeleteObjectsInput × List BatchDeleteObject
  | [], objects, input => ([], input, objects)
  | o :: rest, objects, input =>
    match deleteStep bs objects input o with
    | (none, objects1, input1) => assemble bs rest objects1 input1
    | (some fl, objects1, input1) =>
      let t := assemble bs rest objects1 input1
      (fl :: t.1, t.2)

/-- The errors contributed by executing a list of batches with consecutive
call indices starting at `k`. -/
def batchErrsFrom (d : BatchDelete) :
    Nat → List (DeleteObjectsInput × List BatchDeleteObject) → List Error
  | _, [] => []
  | k, (inp, objs) :: rest =>
    (deleteBatch d k inp objs).1 ++ batchErrsFrom d (k + 1) rest

/-- The events contributed by executing a list of batches with consecutive
call indices starting at `k`. -/
def batchEventsFrom (d : BatchDelete) :
    Nat → List (DeleteObjectsInput × List BatchDeleteObject) → List Event
  | _, [] => []
  | k, (inp, objs) :: rest =>
    (deleteBatch d k inp objs).2 ++ batchEventsFrom d (k + 1) rest

/-- The final flush of Delete as a (possibly empty) list of batches: the
open batch is executed exactly when it exists and has at least one member. -/
def finalCalls (input : Option DeleteObjectsInput) (objects : List BatchDeleteObject) :
    List (DeleteObjectsInput × List BatchDeleteObject) :=
  match input with
  | some inp => if 0 < inp.objects.length then [(inp, objects)] else []
  | none => []

/-- The batches executed from an intermediate loop state onwards: the
remaining loop flushes followed by the final flush. -/
def callsFromState (bs : Int) (l acc : List BatchDeleteObject)
    (input : Option DeleteObjectsInput) :
    List (DeleteObjectsInput × List BatchDeleteObject) :=
  let t := assemble bs l acc input
  t.1 ++ finalCalls t.2.1 t.2.2

/-- All batches a Delete run executes, in call order: the batches flushed
inside the loop followed by the final flush. -/
def assembledCalls (bs : Int) (cands : List BatchDeleteObject) :
    List (DeleteObjectsInput × List BatchDeleteObject) :=
  callsFromState bs cands [] none

/-- The single Error recorded for a non-nil iterator Err(), with nil bucket
and key. -/
def iterErrList (iterErr : Option GoErr) : List Error :=
  match iterErr with
  | some e => [newError e none none]
  | none => []

/-- A Delete run described through `assemble`: loop-flushed batches first,
then the iterator error, then the final flush; the events are those of all
executed batches in call order.  `Delete_eq_viaAssemble` proves this equal
to `BatchDelete.Delete`. -/
def deleteViaAssemble (d : BatchDelete) (cands : List BatchDeleteObject)
    (iterErr : Option GoErr) : DeleteResult :=
  let t := assemble d.batchSize cands [] none
  let errs := batchErrsFrom d 0 t.1 ++ iterErrList iterErr ++
    batchErrsFrom d t.1.length (finalCalls t.2.1 t.2.2)
  let events := batchEventsFrom d 0 t.1 ++
    batchEventsFrom d t.1.length (finalCalls t.2.1 t.2.2)
  { ret :=
      if errs.length > 0 then
        some (NewBatchError "BatchedDeleteIncomplete"
          "some objects have failed to be deleted." errs)
      else none,
    errs := errs,
    events := events }

/-- The (input, batch candidates) pairs of the DeleteObjects calls recorded
in an event trace, in order. -/
def eventCalls (es : List Event) : List (DeleteObjectsInput × List BatchDeleteObject) :=
  es.filterMap fun e =>
    match e with
    | Event.call _ inp objs => some (inp, objs)
    | Event.hook _ => none

/-- The member lists (Delete.Objects) of the DeleteObjects calls recorded in
an event trace, in order. -/
def eventCallMembers (es : List Event) : List (List ObjectIdentifier) :=
  es.filterMap fun e =>
    match e with
    | Event.call _ inp _ => some inp.objects
    | Event.hook _ => none

/-- The candidates whose After hook was invoked, in invocation order. -/
def eventHooks (es : List Event) : List BatchDeleteObject :=
  es.filterMap fun e =>
    match e with
    | Event.call _ _ _ => none
    | Event.hook o => some o

/-- Splits a list into consecutive chunks of size `B` (the last chunk
possibly shorter).  Meaningful for `1 ≤ B`; total for every `B`. -/
def chunksOf (B : Nat) : List α → List (List α)
  | [] => []
  | a :: l => ((a :: l).take B) :: chunksOf B (l.drop (B - 1))
termination_by l => l.length
decreasing_by
  simp only [List.length_drop, List.length_cons]
  omega

/-- The DeleteObjectsInput holding the shared fields `(b, m, p)` and the
identifiers of the given candidates; the shape of every call input of a
uniform-parity run. -/
def uInput (b m : Option String) (p : String) (acc : List BatchDeleteObject) :
    DeleteObjectsInput :=
  { bucket := b, mfa := m, requestPayer := p, objects := acc.map toIdent }

/-- The per-call invariant of claim C2: the call's identifiers are exactly
those of its candidates, the call is non-empty and within the batch size,
every candidate of the batch has parity with the issued input, and the
input's shared fields are those of the batch's initial candidate. -/
def goodBatch (bs : Int) (q : DeleteObjectsInput × List BatchDeleteObject) : Prop :=
  q.1.objects = q.2.map toIdent ∧
  1 ≤ q.1.objects.length ∧
  (q.1.objects.length : Int) ≤ bs ∧
  (∀ o ∈ q.2, hasParity q.1 o = true) ∧
  (∀ o0 ∈ q.2.head?, q.1.bucket = o0.object.bucket ∧ q.1.mfa = o0.object.mfa ∧
    q.1.requestPayer = o0.object.requestPayer)

/-- The loop invariant tying the open input to the open candidate list. -/
def batchInv (bs : Int) (objects : List BatchDeleteObject)
    (input : Option DeleteObjectsInput) : Prop :=
  match input with
  | none => objects = []
  | some i =>
      objects ≠ [] ∧
      i.objects = objects.map toIdent ∧
      (i.objects.length : Int) < bs ∧
      (∀ o ∈ objects, hasParity i o = true) ∧
      (∀ o0 ∈ objects.head?, i.bucket = o0.object.bucket ∧ i.mfa = o0.object.mfa ∧
        i.requestPayer = o0.object.requestPayer)

/- Concrete values used by the closed witness and counterexample theorems. -/

/-- A client that always reports full success. -/
def okClient : Client := fun _ _ => Except.ok { errors := [] }

/-- A client that always fails at call level with the given error. -/
def failClient (e : GoErr) : Client := fun _ _ => Except.error e

/-- A hook-free candidate for bucket `b` and key `k`. -/
def mkCand (b k : String) : BatchDeleteObject :=
  { object := { bucket := some b, key := some k, versionId := none,
                mfa := none, requestPayer := "" },
    after := none }

/- ---------------------------------------------------------------------
   Basic lemmas.
   --------------------------------------------------------------------- -/

theorem hasParity_set_objects (i : DeleteObjectsInput) (x : List ObjectIdentifier)
    (o : BatchDeleteObject) : hasParity { i with objects := x } o = hasParity i o := rfl

theorem hasParity_of_eq {i : DeleteObjectsInput} {o : BatchDeleteObject}
    (hb : i.bucket = o.object.bucket) (hm : i.mfa = o.object.mfa)
    (hp : i.requestPayer = o.object.requestPayer) : hasParity i o = true := by
  unfold hasParity
  rw [hb, hm, hp]
  cases o.object.bucket <;> cases o.object.mfa <;> simp

theorem hasParity_init (o : BatchDeleteObject) :
    hasParity (initDeleteObjectsInput o.object) o = true :=
  hasParity_of_eq rfl rfl rfl

/-- Any input carrying exactly the candidate's shared fields has parity with
it, whatever its object list. -/
theorem hasParity_mk (o : BatchDeleteObject) (x : List ObjectIdentifier) :
    hasParity { bucket := o.object.bucket, mfa := o.object.mfa,
                requestPayer := o.object.requestPayer, objects := x } o = true :=
  hasParity_of_eq rfl rfl rfl

/-- The loop of Delete is `assemble` plus, for each flushed batch in order,
the errors and events of the corresponding client call. -/
theorem deleteLoop_eq_assemble (d : BatchDelete) :
    ∀ (cands : List BatchDeleteObject) (errs : List Error)
      (objects : List BatchDeleteObject) (input : Option DeleteObjectsInput)
      (k : Nat) (events : List Event),
    deleteLoop d cands errs objects input k events =
      (errs ++ batchErrsFrom d k (assemble d.batchSize cands objects input).1,
       (assemble d.batchSize cands objects input).2.2,
       (assemble d.batchSize cands objects input).2.1,
       k + (assemble d.batchSize cands objects input).1.length,
       events ++ batchEventsFrom d k (assemble d.batchSize cands objects input).1) := by
  intro cands
  induction cands with
  | nil =>
    intro errs objects input k events
    simp [deleteLoop, assemble, batchErrsFrom, batchEventsFrom]
  | cons o rest ih =>
    intro errs objects input k events
    rcases hstep : deleteStep d.batchSize objects input o with ⟨fl, objects1, input1⟩
    cases fl with
    | none =>
      simp only [deleteLoop, assemble, hstep]
      exact ih errs objects1 input1 k events
    | some q =>
      simp only [deleteLoop, assemble, hstep]
      rw [ih]
      simp [batchErrsFrom, batchEventsFrom, List.append_assoc]
      omega

/-- BatchDelete.Delete agrees with its description through `assemble`. -/
theorem Delete_eq_viaAssemble (d : BatchDelete) (cands : List BatchDeleteObject)
    (iterErr : Option GoErr) :
    BatchDelete.Delete d cands iterErr = deleteViaAssemble d cands iterErr := by
  unfold BatchDelete.Delete deleteViaAssemble
  rw [deleteLoop_eq_assemble]
  rcases h2 : (assemble d.batchSize cands [] none).2 with ⟨input, objects⟩
  cases input with
  | none =>
    cases iterErr <;>
      simp [h2, finalCalls, batchErrsFrom, batchEventsFrom, iterErrList]
  | some inp =>
    by_cases hlen : 0 < inp.objects.length
    · cases iterErr <;>
        simp [h2, finalCalls, batchErrsFrom, batchEventsFrom, iterErrList, hlen,
          List.append_assoc]
    · cases iterErr <;>
        simp [h2, finalCalls, batchErrsFrom, batchEventsFrom, iterErrList, hlen]

/-- The event trace of one batch execution: the call event followed by one
hook event per candidate whose After hook is present, in batch order.  It
does not depend on the client or on the call's outcome. -/
theorem deleteBatch_events (d : BatchDelete) (k : Nat) (inp : DeleteObjectsInput)
    (objs : List BatchDeleteObject) :
    (deleteBatch d k inp objs).2 =
      Event.call k inp objs :: (objs.filter (fun o => o.after.isSome)).map Event.hook := rfl

theorem batchEventsFrom_append (d : BatchDelete) (k : Nat)
    (l1 l2 : List (DeleteObjectsInput × List BatchDeleteObject)) :
    batchEventsFrom d k (l1 ++ l2) =
      batchEventsFrom d k l1 ++ batchEventsFrom d (k + l1.length) l2 := by
  induction l1 generalizing k with
  | nil => simp [batchEventsFrom]
  | cons q rest ih =>
    rcases q with ⟨inp, objs⟩
    simp [batchEventsFrom, ih, List.append_assoc, Nat.add_assoc, Nat.add_comm 1]

theorem batchEventsFrom_client_indep (d d' : BatchDelete) (k : Nat)
    (l : List (DeleteObjectsInput × List BatchDeleteObject)) :
    batchEventsFrom d k l = batchEventsFrom d' k l := by
  induction l generalizing k with
  | nil => rfl
  | cons q rest ih =>
    rcases q with ⟨inp, objs⟩
    simp [batchEventsFrom, deleteBatch_events, ih]

theorem eventCalls_batchEventsFrom (d : BatchDelete) (k : Nat)
    (l : List (DeleteObjectsInput × List BatchDeleteObject)) :
    eventCalls (batchEventsFrom d k l) = l := by
  induction l generalizing k with
  | nil => rfl
  | cons q rest ih =>
    rcases q with ⟨inp, objs⟩
    have h1 : eventCalls (batchEventsFrom d k ((inp, objs) :: rest)) =
        (inp, objs) :: eventCalls (batchEventsFrom d (k + 1) rest) := by
      rw [batchEventsFrom, deleteBatch_events]
      simp [eventCalls]
    rw [h1, ih (k + 1)]

theorem eventCallMembers_batchEventsFrom (d : BatchDelete) (k : Nat)
    (l : List (DeleteObjectsInput × List BatchDeleteObject)) :
    eventCallMembers (batchEventsFrom d k l) = l.map (fun q => q.1.objects) := by
  induction l generalizing k with
  | nil => rfl
  | cons q rest ih =>
    rcases q with ⟨inp, objs⟩
    have h1 : eventCallMembers (batchEventsFrom d k ((inp, objs) :: rest)) =
        inp.objects :: eventCallMembers (batchEventsFrom d (k + 1) rest) := by
      rw [batchEventsFrom, deleteBatch_events]
      simp [eventCallMembers]
    rw [h1, ih (k + 1)]
    rfl

theorem eventHooks_cons_hook (o : BatchDeleteObject) (rest : List Event) :
    eventHooks (Event.hook o :: rest) = o :: eventHooks rest := rfl

theorem eventHooks_cons_call (k : Nat) (inp : DeleteObjectsInput)
    (objs : List BatchDeleteObject) (rest : List Event) :
    eventHooks (Event.call k inp objs :: rest) = eventHooks rest := rfl

theorem eventHooks_append (l1 l2 : List Event) :
    eventHooks (l1 ++ l2) = eventHooks l1 ++ eventHooks l2 := by
  simp [eventHooks, List.filterMap_append]

theorem eventHooks_map_hook (l : List BatchDeleteObject) :
    eventHooks (l.map Event.hook) = l := by
  induction l with
  | nil => rfl
  | cons a t ih => rw [List.map_cons, eventHooks_cons_hook, ih]

theorem eventHooks_batchEventsFrom (d : BatchDelete) (k : Nat)
    (l : List (DeleteObjectsInput × List BatchDeleteObject)) :
    eventHooks (batchEventsFrom d k l) =
      (l.map (fun q => q.2.filter (fun o => o.after.isSome))).flatten := by
  induction l generalizing k with
  | nil => rfl
  | cons q rest ih =>
    rcases q with ⟨inp, objs⟩
    have h1 : eventHooks (batchEventsFrom d k ((inp, objs) :: rest)) =
        objs.filter (fun o => o.after.isSome) ++
          eventHooks (batchEventsFrom d (k + 1) rest) := by
      rw [batchEventsFrom, deleteBatch_events, List.cons_append,
        eventHooks_cons_call, eventHooks_append, eventHooks_map_hook]
    rw [h1, ih (k + 1)]
    rfl

/-- The events of a Delete run are exactly those of its assembled batches
(loop flushes then the final flush), with consecutive call indices from 0. -/
theorem Delete_events (d : BatchDelete) (cands : List BatchDeleteObject)
    (iterErr : Option GoErr) :
    (BatchDelete.Delete d cands iterErr).events =
      batchEventsFrom d 0 (assembledCalls d.batchSize cands) := by
  rw [Delete_eq_viaAssemble]
  unfold deleteViaAssemble assembledCalls callsFromState
  simp [batchEventsFrom_append]

/-- The errors of a Delete run: the loop batches' errors, then the iterator
error (if any), then the final flush's errors. -/
theorem Delete_errs (d : BatchDelete) (cands : List BatchDeleteObject)
    (iterErr : Option GoErr) :
    (BatchDelete.Delete d cands iterErr).errs =
      batchErrsFrom d 0 (assemble d.batchSize cands [] none).1 ++ iterErrList iterErr ++
      batchErrsFrom d (assemble d.batchSize cands [] none).1.length
        (finalCalls (assemble d.batchSize cands [] none).2.1
          (assemble d.batchSize cands [] none).2.2) := by
  rw [Delete_eq_viaAssemble]
  rfl

/-- The returned value of a Delete run is determined by the collected
errors: Go nil when none were collected, and otherwise the single
BatchError aggregating all of them in order. -/
theorem Delete_ret (d : BatchDelete) (cands : List BatchDeleteObject)
    (iterErr : Option GoErr) :
    (BatchDelete.Delete d cands iterErr).ret =
      (if (BatchDelete.Delete d cands iterErr).errs.length > 0 then
        some (NewBatchError "BatchedDeleteIncomplete"
          "some objects have failed to be deleted."
          (BatchDelete.Delete d cands iterErr).errs)
      else none) := by
  rw [Delete_eq_viaAssemble]
  rfl

/- ---------------------------------------------------------------------
   Characterization of one loop step.
   --------------------------------------------------------------------- -/

/-- A step with no open batch: the input is seeded from the candidate, which
always has parity with it, so the candidate is appended; the 1-element batch
is flushed exactly when the batch size is 1. -/
theorem deleteStep_none (bs : Int) (objects : List BatchDeleteObject)
    (o : BatchDeleteObject) :
    deleteStep bs objects none o =
      if (1 : Int) = bs then
        (some ({ initDeleteObjectsInput o.object with objects := [toIdent o] },
          objects ++ [o]), [], none)
      else
        (none, objects ++ [o],
         some { initDeleteObjectsInput o.object with objects := [toIdent o] }) := by
  unfold deleteStep
  simp [initDeleteObjectsInput, hasParity_mk]

/-- A step whose candidate has parity with the open batch: the candidate is
appended, and the batch is flushed exactly when it reaches the batch size. -/
theorem deleteStep_some_true (bs : Int) (objects : List BatchDeleteObject)
    (i : DeleteObjectsInput) (o : BatchDeleteObject) (hp : hasParity i o = true) :
    deleteStep bs objects (some i) o =
      if ((i.objects.length : Int) + 1) = bs then
        (some ({ i with objects := i.objects ++ [toIdent o] }, objects ++ [o]), [], none)
      else
        (none, objects ++ [o], some { i with objects := i.objects ++ [toIdent o] }) := by
  unfold deleteStep
  simp [hp]

/-- A step whose candidate breaks parity with the open batch: the open batch
is flushed as it stands (however small), and a fresh batch is seeded with
the non-parity candidate and its identifier. -/
theorem deleteStep_some_false (bs : Int) (objects : List BatchDeleteObject)
    (i : DeleteObjectsInput) (o : BatchDeleteObject) (hp : hasParity i o = false) :
    deleteStep bs objects (some i) o =
      (some (i, objects), [o],
       some { initDeleteObjectsInput o.object with objects := [toIdent o] }) := by
  unfold deleteStep
  simp [hp]

/- ---------------------------------------------------------------------
   Chunking lemmas.
   --------------------------------------------------------------------- -/

theorem chunksOf_cons_eq (B : Nat) (hB : 1 ≤ B) (l : List α) (hl : l ≠ []) :
    chunksOf B l = l.take B :: chunksOf B (l.drop B) := by
  cases l with
  | nil => exact absurd rfl hl
  | cons a t =>
    rw [chunksOf]
    cases B with
    | zero => omega
    | succ n => simp [List.drop_succ_cons]

theorem chunksOf_short (B : Nat) (hB : 1 ≤ B) (l : List α) (hl : l ≠ [])
    (hlen : l.length ≤ B) : chunksOf B l = [l] := by
  rw [chunksOf_cons_eq B hB l hl, List.take_of_length_le hlen,
    List.drop_eq_nil_of_le hlen]
  simp [chunksOf]

theorem chunksOf_full_prefix (B : Nat) (hB : 1 ≤ B) (c rest : List α)
    (hc : c.length = B) : chunksOf B (c ++ rest) = c :: chunksOf B rest := by
  have hcne : c ≠ [] := by
    intro h
    subst h
    simp at hc
    omega
  have hne : c ++ rest ≠ [] := by
    intro h
    exact hcne (List.append_eq_nil.mp h).1
  rw [chunksOf_cons_eq B hB _ hne, ← hc, List.take_left, List.drop_left]

theorem chunksOf_map_length (B : Nat) (hB : 1 ≤ B) (l : List α) :
    (chunksOf B l).map List.length =
      List.replicate (l.length / B) B ++
        (if l.length % B = 0 then [] else [l.length % B]) := by
  suffices h : ∀ (n : Nat) (l : List α), l.length ≤ n →
      (chunksOf B l).map List.length =
        List.replicate (l.length / B) B ++
          (if l.length % B = 0 then [] else [l.length % B]) from
    h l.length l le_rfl
  intro n
  induction n with
  | zero =>
    intro l hl
    have : l = [] := List.eq_nil_of_length_eq_zero (Nat.le_zero.mp hl)
    subst this
    simp [chunksOf]
  | succ n ih =>
    intro l hl
    by_cases hnil : l = []
    · subst hnil
      simp [chunksOf]
    · by_cases hshort : l.length ≤ B
      · rw [chunksOf_short B hB l hnil hshort]
        rcases Nat.lt_or_ge l.length B with hlt | hge
        · have h0 : l.length ≠ 0 := fun h => hnil (List.eq_nil_of_length_eq_zero h)
          rw [Nat.div_eq_of_lt hlt, Nat.mod_eq_of_lt hlt]
          simp [h0]
        · have heq : l.length = B := Nat.le_antisymm hshort hge
          rw [heq, Nat.div_self (by omega), Nat.mod_self]
          simp [List.replicate_succ, heq]
      · push_neg at hshort
        rw [chunksOf_cons_eq B hB l hnil]
        have hdl : (l.drop B).length = l.length - B := List.length_drop B l
        have hih := ih (l.drop B) (by omega)
        rw [List.map_cons, hih, hdl]
        have hlen1 : (l.take B).length = B := by
          rw [List.length_take]
          omega
        have hsplit : l.length = (l.length - B) + B := by omega
        rw [hlen1, hsplit, Nat.add_div_right _ (by omega : 0 < B), Nat.add_mod_right,
          List.replicate_succ]
        simp

/- ---------------------------------------------------------------------
   Unfolding lemmas for callsFromState.
   --------------------------------------------------------------------- -/

theorem callsFromState_nil (bs : Int) (acc : List BatchDeleteObject)
    (input : Option DeleteObjectsInput) :
    callsFromState bs [] acc input = finalCalls input acc := by
  simp [callsFromState, assemble]

theorem callsFromState_cons_flush {bs : Int} {acc : List BatchDeleteObject}
    {input : Option DeleteObjectsInput} {o : BatchDeleteObject}
    {q : DeleteObjectsInput × List BatchDeleteObject}
    {o1 : List BatchDeleteObject} {i1 : Option DeleteObjectsInput}
    (rest : List BatchDeleteObject)
    (hstep : deleteStep bs acc input o = (some q, o1, i1)) :
    callsFromState bs (o :: rest) acc input = q :: callsFromState bs rest o1 i1 := by
  simp [callsFromState, assemble, hstep]

theorem callsFromState_cons_skip {bs : Int} {acc : List BatchDeleteObject}
    {input : Option DeleteObjectsInput} {o : BatchDeleteObject}
    {o1 : List BatchDeleteObject} {i1 : Option DeleteObjectsInput}
    (rest : List BatchDeleteObject)
    (hstep : deleteStep bs acc input o = (none, o1, i1)) :
    callsFromState bs (o :: rest) acc input = callsFromState bs rest o1 i1 := by
  simp [callsFromState, assemble, hstep]

/- ---------------------------------------------------------------------
   Uniform-parity runs.
   --------------------------------------------------------------------- -/

theorem uInput_objects_length (b m : Option String) (p : String)
    (acc : List BatchDeleteObject) :
    (uInput b m p acc).objects.length = acc.length := by
  simp [uInput]

theorem uInput_snoc (b m : Option String) (p : String)
    (acc : List BatchDeleteObject) (o : BatchDeleteObject) :
    { uInput b m p acc with
      objects := (uInput b m p acc).objects ++ [toIdent o] } = uInput b m p (acc ++ [o]) := by
  simp [uInput]

theorem seed_eq_uInput (b m : Option String) (p : String) (o : BatchDeleteObject)
    (hob : o.object.bucket = b) (hom : o.object.mfa = m)
    (hop : o.object.requestPayer = p) :
    { initDeleteObjectsInput o.object with objects := [toIdent o] } = uInput b m p [o] := by
  simp [initDeleteObjectsInput, uInput, hob, hom, hop]

theorem hasParity_uInput (b m : Option String) (p : String)
    (acc : List BatchDeleteObject) (o : BatchDeleteObject)
    (hob : o.object.bucket = b) (hom : o.object.mfa = m)
    (hop : o.object.requestPayer = p) :
    hasParity (uInput b m p acc) o = true :=
  hasParity_of_eq (by simp [uInput, hob]) (by simp [uInput, hom]) (by simp [uInput, hop])

/-- On a uniform-parity candidate stream, the batches executed from an open
uniform batch `acc` (with spare capacity) onwards are exactly the `B`-sized
chunks of `acc ++ l`, each carrying the shared fields and the identifiers of
its candidates. -/
theorem callsFromState_uniform (B : Nat) (hB : 1 ≤ B) (b m : Option String)
    (p : String) :
    ∀ (l acc : List BatchDeleteObject),
      (∀ o ∈ l, o.object.bucket = b ∧ o.object.mfa = m ∧ o.object.requestPayer = p) →
      (∀ o ∈ acc, o.object.bucket = b ∧ o.object.mfa = m ∧ o.object.requestPayer = p) →
      acc.length < B →
      callsFromState (B : Int) l acc
          (if acc = [] then none else some (uInput b m p acc)) =
        (chunksOf B (acc ++ l)).map (fun c => (uInput b m p c, c)) := by
  intro l
  induction l with
  | nil =>
    intro acc _ hacc hlen
    rw [callsFromState_nil]
    by_cases hacc0 : acc = []
    · subst hacc0
      simp [finalCalls, chunksOf]
    · have hpos : 0 < acc.length := List.length_pos.mpr hacc0
      rw [if_neg hacc0, List.append_nil, chunksOf_short B hB acc hacc0 (le_of_lt hlen)]
      simp [finalCalls, uInput, hpos]
  | cons o rest ih =>
    intro acc hl hacc hlen
    obtain ⟨hob, hom, hop⟩ := hl o (by simp)
    have hrest : ∀ o' ∈ rest, o'.object.bucket = b ∧ o'.object.mfa = m ∧
        o'.object.requestPayer = p := fun o' h' => hl o' (by simp [h'])
    have haccsnoc : ∀ o' ∈ acc ++ [o], o'.object.bucket = b ∧ o'.object.mfa = m ∧
        o'.object.requestPayer = p := by
      intro o' h'
      rcases List.mem_append.mp h' with h' | h'
      · exact hacc o' h'
      · simp at h'
        subst h'
        exact ⟨hob, hom, hop⟩
    by_cases hacc0 : acc = []
    · subst hacc0
      rw [if_pos rfl]
      have hstep := deleteStep_none (B : Int) [] o
      rw [seed_eq_uInput b m p o hob hom hop] at hstep
      by_cases hfull : (1 : Int) = (B : Int)
      · rw [if_pos hfull] at hstep
        rw [callsFromState_cons_flush rest hstep]
        have hB1 : B = 1 := by exact_mod_cast hfull.symm
        have hch : chunksOf B (([] : List BatchDeleteObject) ++ o :: rest) =
            [o] :: chunksOf B rest := by
          have := chunksOf_full_prefix B hB [o] rest (by simp [hB1])
          simpa using this
        rw [hch]
        have hih := ih [] hrest (by intro o' h'; simp at h') (by simp only [List.length_nil]; omega)
        rw [if_pos rfl] at hih
        rw [hih]
        simp
      · rw [if_neg hfull] at hstep
        rw [callsFromState_cons_skip rest hstep]
        have hih := ih ([] ++ [o]) hrest
          (by
            intro o' h'
            simp at h'
            subst h'
            exact ⟨hob, hom, hop⟩)
          (by
            simp only [List.nil_append, List.length_singleton]
            omega)
        rw [if_neg (by simp)] at hih
        simpa using hih
    · rw [if_neg hacc0]
      have hpar : hasParity (uInput b m p acc) o = true :=
        hasParity_uInput b m p acc o hob hom hop
      have hstep := deleteStep_some_true (B : Int) acc (uInput b m p acc) o hpar
      rw [uInput_snoc b m p acc o] at hstep
      rw [uInput_objects_length b m p acc] at hstep
      by_cases hfull : ((acc.length : Int) + 1) = (B : Int)
      · rw [if_pos hfull] at hstep
        rw [callsFromState_cons_flush rest hstep]
        have hlen2 : (acc ++ [o]).length = B := by
          simp only [List.length_append, List.length_singleton]
          omega
        rw [List.append_cons acc o rest, chunksOf_full_prefix B hB (acc ++ [o]) rest hlen2]
        have hih := ih [] hrest (by intro o' h'; simp at h') (by simp only [List.length_nil]; omega)
        rw [if_pos rfl] at hih
        rw [callsFromState] at hih ⊢
        simp only [List.map_cons]
        rw [show assemble (B : Int) rest [] none =
          assemble (B : Int) rest ([] : List BatchDeleteObject) none from rfl] at hih
        simp [hih]
      · rw [if_neg hfull] at hstep
        rw [callsFromState_cons_skip rest hstep]
        have hih := ih (acc ++ [o]) hrest haccsnoc
          (by
            simp only [List.length_append, List.length_singleton]
            omega)
        rw [if_neg (by simp)] at hih
        rw [List.append_cons acc o rest]
        simpa using hih

/- ---------------------------------------------------------------------
   The per-call invariant (claim C2).
   --------------------------------------------------------------------- -/

/-- Every batch executed from a state satisfying the loop invariant is a
good batch: non-empty, within the batch size, member identifiers matching
its candidates, all candidates having parity with the issued input, and the
input carrying the shared fields of the batch's first candidate. -/
theorem callsFromState_good (bs : Int) (hbs : 1 ≤ bs) :
    ∀ (l acc : List BatchDeleteObject) (input : Option DeleteObjectsInput),
      batchInv bs acc input →
      ∀ q ∈ callsFromState bs l acc input, goodBatch bs q := by
  intro l
  induction l with
  | nil =>
    intro acc input hinv q hq
    rw [callsFromState_nil] at hq
    cases input with
    | none => simp [finalCalls] at hq
    | some inp =>
      obtain ⟨hne, hobj, hlt, hpar, hhead⟩ := hinv
      by_cases hpos : 0 < inp.objects.length
      · simp [finalCalls, hpos] at hq
        subst hq
        exact ⟨hobj, hpos, le_of_lt hlt, hpar, hhead⟩
      · simp [finalCalls, hpos] at hq
  | cons o rest ih =>
    intro acc input hinv q hq
    cases input with
    | none =>
      have hacc : acc = [] := hinv
      subst hacc
      have hstep := deleteStep_none bs [] o
      by_cases h1 : (1 : Int) = bs
      · rw [if_pos h1] at hstep
        rw [callsFromState_cons_flush rest hstep] at hq
        rcases List.mem_cons.mp hq with heq | hq'
        · subst heq
          refine ⟨by simp [toIdent], by simp, by simp [← h1], ?_, ?_⟩
          · intro o' ho'
            simp at ho'
            subst ho'
            rw [hasParity_set_objects]
            exact hasParity_init _
          · intro o0 ho0
            simp at ho0
            subst ho0
            exact ⟨rfl, rfl, rfl⟩
        · exact ih [] none (by rfl) q hq'
      · rw [if_neg h1] at hstep
        rw [callsFromState_cons_skip rest hstep] at hq
        refine ih ([] ++ [o])
          (some { initDeleteObjectsInput o.object with objects := [toIdent o] }) ?_ q hq
        refine ⟨by simp, by simp [toIdent], by simp; omega, ?_, ?_⟩
        · intro o' ho'
          simp at ho'
          subst ho'
          rw [hasParity_set_objects]
          exact hasParity_init _
        · intro o0 ho0
          simp at ho0
          subst ho0
          exact ⟨rfl, rfl, rfl⟩
    | some i =>
      obtain ⟨hne, hobj, hlt, hpar, hhead⟩ := hinv
      have hlen1 : 1 ≤ i.objects.length := by
        rw [hobj, List.length_map]
        have := List.length_pos.mpr hne
        omega
      by_cases hp : hasParity i o = true
      · have hstep := deleteStep_some_true bs acc i o hp
        by_cases hfull : ((i.objects.length : Int) + 1) = bs
        · rw [if_pos hfull] at hstep
          rw [callsFromState_cons_flush rest hstep] at hq
          rcases List.mem_cons.mp hq with heq | hq'
          · subst heq
            refine ⟨by simp [hobj, toIdent], by simp, by simp; omega, ?_, ?_⟩
            · intro o' ho'
              rcases List.mem_append.mp ho' with h' | h'
              · rw [hasParity_set_objects]
                exact hpar o' h'
              · simp at h'
                subst h'
                rw [hasParity_set_objects]
                exact hp
            · intro o0 ho0
              cases acc with
              | nil => exact absurd rfl hne
              | cons a t =>
                simp at ho0
                subst ho0
                exact hhead a rfl
          · exact ih [] none (by rfl) q hq'
        · rw [if_neg hfull] at hstep
          rw [callsFromState_cons_skip rest hstep] at hq
          refine ih (acc ++ [o])
            (some { i with objects := i.objects ++ [toIdent o] }) ?_ q hq
          refine ⟨by simp, by simp [hobj, toIdent], by simp; omega, ?_, ?_⟩
          · intro o' ho'
            rcases List.mem_append.mp ho' with h' | h'
            · rw [hasParity_set_objects]
              exact hpar o' h'
            · simp at h'
              subst h'
              rw [hasParity_set_objects]
              exact hp
          · intro o0 ho0
            cases acc with
            | nil => exact absurd rfl hne
            | cons a t =>
              simp at ho0
              subst ho0
              exact hhead a rfl
      · have hp' : hasParity i o = false := by
          cases h : hasParity i o
          · rfl
          · exact absurd h hp
        have hstep := deleteStep_some_false bs acc i o hp'
        rw [callsFromState_cons_flush rest hstep] at hq
        rcases List.mem_cons.mp hq with heq | hq'
        · subst heq
          exact ⟨hobj, hlen1, le_of_lt hlt, hpar, hhead⟩
        · refine ih [o]
            (some { initDeleteObjectsInput o.object with objects := [toIdent o] }) ?_ q hq'
          refine ⟨by simp, by simp [toIdent], by simp; omega, ?_, ?_⟩
          · intro o' ho'
            simp at ho'
            subst ho'
            rw [hasParity_set_objects]
            exact hasParity_init _
          · intro o0 ho0
            simp at ho0
            subst ho0
            exact ⟨rfl, rfl, rfl⟩

/-- The batches of a whole uniform-parity run are the `B`-chunks of the
candidate stream. -/
theorem assembledCalls_uniform (B : Nat) (hB : 1 ≤ B) (b m : Option String)
    (p : String) (cands : List BatchDeleteObject)
    (hu : ∀ o ∈ cands, o.object.bucket = b ∧ o.object.mfa = m ∧
      o.object.requestPayer = p) :
    assembledCalls (B : Int) cands =
      (chunksOf B cands).map (fun c => (uInput b m p c, c)) := by
  have h := callsFromState_uniform B hB b m p cands []
    hu (by intro o ho; simp at ho) (by simp only [List.length_nil]; omega)
  rw [if_pos rfl] at h
  simpa [assembledCalls] using h

/-- Ceiling division: the number of chunks of a uniform run. -/
theorem replicate_mod_length (B : Nat) (hB : 1 ≤ B) (n : Nat) :
    (List.replicate (n / B) B ++
      (if n % B = 0 then [] else [n % B])).length = (n + B - 1) / B := by
  have hdm := Nat.div_add_mod n B
  by_cases h0 : n % B = 0
  · have hlen : (List.replicate (n / B) B ++
        (if n % B = 0 then [] else [n % B])).length = n / B := by
      simp [h0]
    rw [hlen]
    have h1 : n + B - 1 = B * (n / B) + (B - 1) := by omega
    rw [h1, Nat.mul_add_div (by omega : 0 < B)]
    have h2 : (B - 1) / B = 0 := Nat.div_eq_of_lt (by omega)
    omega
  · have hlen : (List.replicate (n / B) B ++
        (if n % B = 0 then [] else [n % B])).length = n / B + 1 := by
      simp [h0]
    rw [hlen]
    have hrB : n % B < B := Nat.mod_lt _ (by omega)
    have hm : B * (n / B + 1) = B * (n / B) + B := by ring
    have h1 : n + B - 1 = B * (n / B + 1) + (n % B - 1) := by omega
    rw [h1, Nat.mul_add_div (by omega : 0 < B)]
    have h2 : (n % B - 1) / B = 0 := Nat.div_eq_of_lt (by omega)
    omega

/-- With a non-positive batch size, a uniform-parity run never flushes
inside the loop: the whole stream stays in the single open batch. -/
theorem assemble_nonpos_uniform (bs : Int) (hbs : bs ≤ 0) (b m : Option String)
    (p : String) :
    ∀ (l acc : List BatchDeleteObject),
      (∀ o ∈ l, o.object.bucket = b ∧ o.object.mfa = m ∧ o.object.requestPayer = p) →
      assemble bs l acc (some (uInput b m p acc)) =
        ([], some (uInput b m p (acc ++ l)), acc ++ l) := by
  intro l
  induction l with
  | nil =>
    intro acc _
    simp [assemble]
  | cons o rest ih =>
    intro acc hl
    obtain ⟨hob, hom, hop⟩ := hl o (by simp)
    have hrest : ∀ o' ∈ rest, o'.object.bucket = b ∧ o'.object.mfa = m ∧
        o'.object.requestPayer = p := fun o' h' => hl o' (by simp [h'])
    have hpar : hasParity (uInput b m p acc) o = true :=
      hasParity_uInput b m p acc o hob hom hop
    have hstep := deleteStep_some_true bs acc (uInput b m p acc) o hpar
    rw [uInput_snoc b m p acc o, uInput_objects_length b m p acc] at hstep
    rw [if_neg (by omega : ¬((acc.length : Int) + 1) = bs)] at hstep
    simp only [assemble, hstep]
    rw [ih (acc ++ [o]) hrest]
    simp

/- ---------------------------------------------------------------------
   Claim C9: DeleteListIterator.Next.
   --------------------------------------------------------------------- -/

/-- C9, counterexample: claim C9 asserts that Next() does not terminate the
sequence while non-empty pages remain, e.g. after an intermediate page whose
contents are empty.  On a fresh iterator whose paginator holds an empty page
followed by a non-empty one, Next() answers false with Err() still nil, even
though a further object exists in the remaining pages. -/
theorem c9_empty_page_counterexample :
    ((NewDeleteListIterator (some "b")
        { pages := [Except.ok [], Except.ok [{ key := some "k" }]] }).next).1 = false ∧
    ((NewDeleteListIterator (some "b")
        { pages := [Except.ok [], Except.ok [{ key := some "k" }]] }).next).2.lastErr =
      none ∧
    ((NewDeleteListIterator (some "b")
        { pages := [Except.ok [], Except.ok [{ key := some "k" }]] }).next).2.paginator.pages =
      [Except.ok [{ key := some "k" }]] :=
  ⟨rfl, rfl, rfl⟩

/-- C9, amended: Next() answers true exactly when a buffered object remains
after consuming the current one, or when the buffer is exhausted and the
next page exists, fetches successfully, and is non-empty.  When the buffer
is exhausted and the next fetch fails, Next() answers false and Err()
returns that fetch error.  When the buffer is exhausted and the fetched page
is empty, Next() answers false with Err() unchanged even if further
non-empty pages remain (this last case is the correction to the claim). -/
theorem c9_next_characterization (it : DeleteListIterator) :
    ((it.next).1 = true ↔
      2 ≤ it.objects.length ∨
        ∃ c rest, it.paginator.pages = Except.ok c :: rest ∧ c ≠ []) ∧
    (∀ (e : GoErr) (rest : List (Except GoErr (List S3Object))),
      it.objects.length ≤ 1 →
      it.paginator.pages = Except.error e :: rest →
      (it.next).1 = false ∧ ((it.next).2).lastErr = some e) ∧
    (∀ (rest : List (Except GoErr (List S3Object))),
      it.objects.length ≤ 1 →
      it.paginator.pages = Except.ok [] :: rest →
      (it.next).1 = false ∧ ((it.next).2).lastErr = it.lastErr) := by
  rcases it with ⟨bk, ⟨pages⟩, objs, er⟩
  refine ⟨?_, ?_, ?_⟩
  · cases objs with
    | nil =>
      cases pages with
      | nil =>
        simp [DeleteListIterator.next, ListPaginator.hasMorePages,
          ListPaginator.nextPage]
      | cons pg rest =>
        cases pg with
        | error e =>
          simp [DeleteListIterator.next, ListPaginator.hasMorePages,
            ListPaginator.nextPage]
        | ok c =>
          simp [DeleteListIterator.next, ListPaginator.hasMorePages,
            ListPaginator.nextPage]
    | cons a t =>
      cases t with
      | nil =>
        cases pages with
        | nil =>
          simp [DeleteListIterator.next, ListPaginator.hasMorePages,
            ListPaginator.nextPage]
        | cons pg rest =>
          cases pg with
          | error e =>
            simp [DeleteListIterator.next, ListPaginator.hasMorePages,
              ListPaginator.nextPage]
          | ok c =>
            simp [DeleteListIterator.next, ListPaginator.hasMorePages,
              ListPaginator.nextPage]
      | cons a2 t2 =>
        simp [DeleteListIterator.next, ListPaginator.hasMorePages,
          ListPaginator.nextPage]
  · intro e rest hlen hpg
    simp only at hpg
    subst hpg
    cases objs with
    | nil =>
      simp [DeleteListIterator.next, ListPaginator.hasMorePages,
        ListPaginator.nextPage, DeleteListIterator.lastErr]
    | cons a t =>
      cases t with
      | nil =>
        simp [DeleteListIterator.next, ListPaginator.hasMorePages,
          ListPaginator.nextPage, DeleteListIterator.lastErr]
      | cons a2 t2 => simp at hlen
  · intro rest hlen hpg
    simp only at hpg
    subst hpg
    cases objs with
    | nil =>
      simp [DeleteListIterator.next, ListPaginator.hasMorePages,
        ListPaginator.nextPage, DeleteListIterator.lastErr]
    | cons a t =>
      cases t with
      | nil =>
        simp [DeleteListIterator.next, ListPaginator.hasMorePages,
          ListPaginator.nextPage, DeleteListIterator.lastErr]
      | cons a2 t2 => simp at hlen

/-- C9, witness for the amended theorem: on a fresh iterator whose first
fetch fails, Next() answers false and Err() carries the fetch error. -/
theorem c9_next_characterization_witness :
    ((NewDeleteListIterator (some "b")
        { pages := [Except.error (GoErr.simple "boom"), Except.ok []] }).next).1 = false ∧
    ((NewDeleteListIterator (some "b")
        { pages := [Except.error (GoErr.simple "boom"),
                    Except.ok []] }).next).2.lastErr = some (GoErr.simple "boom") :=
  (c9_next_characterization (NewDeleteListIterator (some "b")
      { pages := [Except.error (GoErr.simple "boom"), Except.ok []] })).2.1
    (GoErr.simple "boom") [Except.ok []] (by decide) rfl

/- ---------------------------------------------------------------------
   Claim C1: uniform-parity batch counts and sizes.
   --------------------------------------------------------------------- -/

/-- C1: for every iterator trace of N uniform-parity candidates and every
batch size B ≥ 1, Delete issues exactly ⌈N/B⌉ DeleteObjects calls; the first
⌊N/B⌋ calls carry B members each, and the last carries N mod B members (or
B when B divides N), i.e. the member counts are `replicate (N/B) B`
followed by `[N mod B]` when B does not divide N. -/
theorem c1_uniform_call_sizes (client : Client) (B : Nat) (hB : 1 ≤ B)
    (cands : List BatchDeleteObject) (b m : Option String) (p : String)
    (iterErr : Option GoErr)
    (hu : ∀ o ∈ cands, o.object.bucket = b ∧ o.object.mfa = m ∧
      o.object.requestPayer = p) :
    (eventCallMembers (BatchDelete.Delete ⟨client, (B : Int)⟩ cands iterErr).events).map
        List.length =
      List.replicate (cands.length / B) B ++
        (if cands.length % B = 0 then [] else [cands.length % B]) ∧
    (eventCallMembers
        (BatchDelete.Delete ⟨client, (B : Int)⟩ cands iterErr).events).length =
      (cands.length + B - 1) / B := by
  have hev := Delete_events ⟨client, (B : Int)⟩ cands iterErr
  have hm := eventCallMembers_batchEventsFrom ⟨client, (B : Int)⟩ 0
    (assembledCalls (B : Int) cands)
  have hac := assembledCalls_uniform B hB b m p cands hu
  have hmain : eventCallMembers
      (BatchDelete.Delete ⟨client, (B : Int)⟩ cands iterErr).events =
      (chunksOf B cands).map (fun c => c.map toIdent) := by
    rw [hev, hm, hac, List.map_map]
    rfl
  constructor
  · rw [hmain, List.map_map]
    have hcomp : (List.length ∘ fun c : List BatchDeleteObject => c.map toIdent) =
        List.length := by
      funext c
      simp
    rw [hcomp, chunksOf_map_length B hB]
  · rw [hmain, List.length_map]
    have h1 : (chunksOf B cands).length =
        ((chunksOf B cands).map List.length).length := (List.length_map _ _).symm
    rw [h1, chunksOf_map_length B hB, replicate_mod_length B hB]

/-- C1, witness: 1500 uniform candidates with batch size 1000 produce
exactly two calls, of sizes 1000 and 500. -/
theorem c1_uniform_call_sizes_witness :
    (eventCallMembers (BatchDelete.Delete ⟨okClient, ((1000 : Nat) : Int)⟩
        (List.replicate 1500 (mkCand "A" "k")) none).events).map List.length =
      [1000, 500] ∧
    (eventCallMembers (BatchDelete.Delete ⟨okClient, ((1000 : Nat) : Int)⟩
        (List.replicate 1500 (mkCand "A" "k")) none).events).length = 2 := by
  have h := c1_uniform_call_sizes okClient 1000 (by omega)
    (List.replicate 1500 (mkCand "A" "k")) (some "A") none "" none
    (by
      intro o ho
      rw [List.eq_of_mem_replicate ho]
      exact ⟨rfl, rfl, rfl⟩)
  constructor
  · rw [h.1, List.length_replicate]
    decide
  · rw [h.2, List.length_replicate]

/- ---------------------------------------------------------------------
   Claim C2: the per-call batch invariant.
   --------------------------------------------------------------------- -/

/-- C2: for every iterator trace and every BatchSize ≥ 1, every
DeleteObjects call issued by Delete satisfies the batch invariant: its
identifiers are exactly those of its batch's candidates (hence share the
call's single bucket, MFA and RequestPayer), every candidate of the batch
has parity (hasParity) with the issued input, the input carries the shared
fields of the batch's initial candidate, and the call holds at least 1 and
at most BatchSize objects. -/
theorem c2_batch_invariant (d : BatchDelete) (cands : List BatchDeleteObject)
    (iterErr : Option GoErr) (hbs : 1 ≤ d.batchSize) :
    ∀ q ∈ eventCalls (BatchDelete.Delete d cands iterErr).events,
      q.1.objects = q.2.map toIdent ∧
      1 ≤ q.1.objects.length ∧
      (q.1.objects.length : Int) ≤ d.batchSize ∧
      (∀ o ∈ q.2, hasParity q.1 o = true) ∧
      (∀ o0 ∈ q.2.head?, q.1.bucket = o0.object.bucket ∧ q.1.mfa = o0.object.mfa ∧
        q.1.requestPayer = o0.object.requestPayer) := by
  intro q hq
  rw [Delete_events, eventCalls_batchEventsFrom] at hq
  exact callsFromState_good d.batchSize hbs cands [] none (by rfl) q hq

/-- C2, witness: with batch size 2, the single call of a 1-candidate run
satisfies the batch invariant. -/
theorem c2_batch_invariant_witness :
    (1 : Int) ≤ (2 : Int) ∧
    ∀ q ∈ eventCalls (BatchDelete.Delete ⟨okClient, 2⟩ [mkCand "A" "k1"] none).events,
      q.1.objects = q.2.map toIdent ∧
      1 ≤ q.1.objects.length ∧
      (q.1.objects.length : Int) ≤ (2 : Int) ∧
      (∀ o ∈ q.2, hasParity q.1 o = true) ∧
      (∀ o0 ∈ q.2.head?, q.1.bucket = o0.object.bucket ∧ q.1.mfa = o0.object.mfa ∧
        q.1.requestPayer = o0.object.requestPayer) :=
  ⟨by norm_num,
   c2_batch_invariant ⟨okClient, 2⟩ [mkCand "A" "k1"] none (by norm_num)⟩

/- ---------------------------------------------------------------------
   Claim C3: a parity break forces an immediate flush.
   --------------------------------------------------------------------- -/

/-- C3: whenever the next candidate breaks parity with the open batch,
Delete's loop immediately flushes the open batch (even below BatchSize) and
seeds a fresh batch with the non-parity candidate; in particular three
candidates with buckets A, A, B under batch size 1000 produce exactly two
calls, first with the two A-objects, then with the B-object. -/
theorem c3_parity_break_flush :
    (∀ (d : BatchDelete) (o : BatchDeleteObject) (rest : List BatchDeleteObject)
        (errs : List Error) (objects : List BatchDeleteObject)
        (i : DeleteObjectsInput) (k : Nat) (events : List Event),
      hasParity i o = false →
      deleteLoop d (o :: rest) errs objects (some i) k events =
        deleteLoop d rest (errs ++ (deleteBatch d k i objects).1) [o]
          (some { initDeleteObjectsInput o.object with objects := [toIdent o] })
          (k + 1) (events ++ (deleteBatch d k i objects).2)) ∧
    eventCalls (BatchDelete.Delete ⟨okClient, 1000⟩
        [mkCand "A" "k1", mkCand "A" "k2", mkCand "B" "k3"] none).events =
      [({ bucket := some "A", mfa := none, requestPayer := "",
          objects := [{ key := some "k1", versionId := none },
                      { key := some "k2", versionId := none }] },
        [mkCand "A" "k1", mkCand "A" "k2"]),
       ({ bucket := some "B", mfa := none, requestPayer := "",
          objects := [{ key := some "k3", versionId := none }] },
        [mkCand "B" "k3"])] := by
  constructor
  · intro d o rest errs objects i k events hp
    have hstep := deleteStep_some_false d.batchSize objects i o hp
    simp only [deleteLoop, hstep]
  · decide

/-- C3, witness: a concrete parity break (bucket A batch, bucket B
candidate) flushes the open one-element batch and seeds a new batch from
the B candidate. -/
theorem c3_parity_break_flush_witness :
    hasParity { bucket := some "A", mfa := none, requestPayer := "",
                objects := [{ key := some "k1", versionId := none }] }
      (mkCand "B" "k2") = false ∧
    deleteLoop ⟨okClient, 1000⟩ [mkCand "B" "k2"] [] [mkCand "A" "k1"]
        (some { bucket := some "A", mfa := none, requestPayer := "",
                objects := [{ key := some "k1", versionId := none }] }) 0 [] =
      deleteLoop ⟨okClient, 1000⟩ [] ([] ++
          (deleteBatch ⟨okClient, 1000⟩ 0
            { bucket := some "A", mfa := none, requestPayer := "",
              objects := [{ key := some "k1", versionId := none }] }
            [mkCand "A" "k1"]).1)
        [mkCand "B" "k2"]
        (some { initDeleteObjectsInput (mkCand "B" "k2").object with
                objects := [toIdent (mkCand "B" "k2")] })
        (0 + 1)
        ([] ++ (deleteBatch ⟨okClient, 1000⟩ 0
            { bucket := some "A", mfa := none, requestPayer := "",
              objects := [{ key := some "k1", versionId := none }] }
            [mkCand "A" "k1"]).2) :=
  ⟨by decide,
   c3_parity_break_flush.1 ⟨okClient, 1000⟩ (mkCand "B" "k2") [] []
     [mkCand "A" "k1"]
     { bucket := some "A", mfa := none, requestPayer := "",
       objects := [{ key := some "k1", versionId := none }] } 0 [] (by decide)⟩

/- ---------------------------------------------------------------------
   Claim C4: After hooks.
   --------------------------------------------------------------------- -/

/-- C4: in every executed batch, each candidate with a present After hook is
invoked exactly once, after the batch's DeleteObjects call resolves
(whatever its outcome: the event trace below is the same for every client),
in the order the candidates were appended; the errors of the batch are the
call's errors followed by one Error per failing hook — hookError records
the candidate's bucket and key — so a failing hook never prevents later
hooks from contributing.  Across a whole run, the hooks invoked are exactly
those of the batched candidates, batch by batch, in order. -/
theorem c4_after_hooks :
    (∀ (d : BatchDelete) (k : Nat) (inp : DeleteObjectsInput)
        (objs : List BatchDeleteObject),
      (deleteBatch d k inp objs).2 =
        Event.call k inp objs :: (objs.filter (fun o => o.after.isSome)).map Event.hook) ∧
    (∀ (d : BatchDelete) (k : Nat) (inp : DeleteObjectsInput)
        (objs : List BatchDeleteObject),
      ∃ callErrs, (deleteBatch d k inp objs).1 = callErrs ++ objs.filterMap hookError) ∧
    (∀ (d : BatchDelete) (cands : List BatchDeleteObject) (iterErr : Option GoErr),
      eventHooks (BatchDelete.Delete d cands iterErr).events =
        ((eventCalls (BatchDelete.Delete d cands iterErr).events).map
          (fun q => q.2.filter (fun o => o.after.isSome))).flatten) := by
  refine ⟨deleteBatch_events, ?_, ?_⟩
  · intro d k inp objs
    cases h : d.client k inp with
    | error err =>
      exact ⟨inp.objects.map (fun oi => newError err inp.bucket oi.key),
        by simp [deleteBatch, h]⟩
    | ok result =>
      exact ⟨result.errors.map (fun re =>
          newError (GoErr.aws (re.code.getD ErrDeleteBatchFailCode)
            (re.message.getD errDefaultDeleteBatchMessage)) inp.bucket re.key),
        by simp [deleteBatch, h]⟩
  · intro d cands iterErr
    rw [Delete_events, eventHooks_batchEventsFrom, eventCalls_batchEventsFrom]

/-- C4, witness: a two-candidate batch whose first hook fails and whose
second hook succeeds yields the call event followed by both hook events in
order, and the failing hook contributes exactly one Error carrying its
candidate's bucket and key. -/
theorem c4_after_hooks_witness :
    (deleteBatch ⟨okClient, 1000⟩ 0
        { bucket := some "A", mfa := none, requestPayer := "",
          objects := [{ key := some "k1", versionId := none },
                      { key := some "k2", versionId := none }] }
        [{ object := (mkCand "A" "k1").object, after := some (some (GoErr.simple "h1")) },
         { object := (mkCand "A" "k2").object, after := some none }]).2 =
      [Event.call 0
        { bucket := some "A", mfa := none, requestPayer := "",
          objects := [{ key := some "k1", versionId := none },
                      { key := some "k2", versionId := none }] }
        [{ object := (mkCand "A" "k1").object, after := some (some (GoErr.simple "h1")) },
         { object := (mkCand "A" "k2").object, after := some none }],
       Event.hook { object := (mkCand "A" "k1").object,
                    after := some (some (GoErr.simple "h1")) },
       Event.hook { object := (mkCand "A" "k2").object, after := some none }] := by
  have h := c4_after_hooks.1 ⟨okClient, 1000⟩ 0
    { bucket := some "A", mfa := none, requestPayer := "",
      objects := [{ key := some "k1", versionId := none },
                  { key := some "k2", versionId := none }] }
    [{ object := (mkCand "A" "k1").object, after := some (some (GoErr.simple "h1")) },
     { object := (mkCand "A" "k2").object, after := some none }]
  exact h.trans (by decide)

/- ---------------------------------------------------------------------
   Claim C5: call-level (transport) failure.
   --------------------------------------------------------------------- -/

/-- C5: when a DeleteObjects call fails at call level with error e (and the
batch's hooks, if any, succeed), the batch contributes exactly one Error
per member, each carrying the batch's bucket, that member's key and the
same error e; and the call/hook event trace of a whole Delete run is
independent of the client, so subsequent batches are still pulled and
executed after such a failure. -/
theorem c5_transport_failure :
    (∀ (d : BatchDelete) (k : Nat) (inp : DeleteObjectsInput)
        (objs : List BatchDeleteObject) (e : GoErr),
      d.client k inp = Except.error e →
      (∀ o ∈ objs, hookError o = none) →
      (deleteBatch d k inp objs).1 =
        inp.objects.map (fun oi => newError e inp.bucket oi.key)) ∧
    (∀ (bs : Int) (c c' : Client) (cands : List BatchDeleteObject)
        (iterErr : Option GoErr),
      (BatchDelete.Delete ⟨c, bs⟩ cands iterErr).events =
        (BatchDelete.Delete ⟨c', bs⟩ cands iterErr).events) := by
  constructor
  · intro d k inp objs e hcall hhooks
    have hnil : objs.filterMap hookError = [] := List.filterMap_eq_nil_iff.mpr hhooks
    simp [deleteBatch, hcall, hnil]
  · intro bs c c' cands iterErr
    rw [Delete_events, Delete_events]
    exact batchEventsFrom_client_indep ⟨c, bs⟩ ⟨c', bs⟩ 0 _

/-- C5, witness: a failing call over a two-member hook-free batch records
one Error per member, with the batch bucket, the member keys, and the same
underlying error. -/
theorem c5_transport_failure_witness :
    failClient (GoErr.simple "boom") 0
      { bucket := some "A", mfa := none, requestPayer := "",
        objects := [{ key := some "k1", versionId := none },
                    { key := some "k2", versionId := none }] } =
      Except.error (GoErr.simple "boom") ∧
    (deleteBatch ⟨failClient (GoErr.simple "boom"), 1000⟩ 0
        { bucket := some "A", mfa := none, requestPayer := "",
          objects := [{ key := some "k1", versionId := none },
                      { key := some "k2", versionId := none }] } []).1 =
      [newError (GoErr.simple "boom") (some "A") (some "k1"),
       newError (GoErr.simple "boom") (some "A") (some "k2")] := by
  refine ⟨rfl, ?_⟩
  have h := c5_transport_failure.1 ⟨failClient (GoErr.simple "boom"), 1000⟩ 0
    { bucket := some "A", mfa := none, requestPayer := "",
      objects := [{ key := some "k1", versionId := none },
                  { key := some "k2", versionId := none }] }
    [] (GoErr.simple "boom") rfl (by intro o ho; simp at ho)
  exact h.trans (by decide)

/- ---------------------------------------------------------------------
   Claim C6: partial success with server-reported per-key errors.
   --------------------------------------------------------------------- -/

/-- C6: when a DeleteObjects call succeeds but its result lists per-key
errors (and the batch's hooks, if any, succeed), the batch contributes
exactly one Error per reported failing key, carrying the server code and
message with the defaults "DeleteBatchError" and "failed to delete" when
the server omits them; keys not listed in the result contribute no Error. -/
theorem c6_per_key_failure (d : BatchDelete) (k : Nat) (inp : DeleteObjectsInput)
    (objs : List BatchDeleteObject) (res : DeleteObjectsOutput)
    (hres : d.client k inp = Except.ok res)
    (hhooks : ∀ o ∈ objs, hookError o = none) :
    (deleteBatch d k inp objs).1 =
      res.errors.map (fun re =>
        newError (GoErr.aws (re.code.getD ErrDeleteBatchFailCode)
            (re.message.getD errDefaultDeleteBatchMessage)) inp.bucket re.key) := by
  have hnil : objs.filterMap hookError = [] := List.filterMap_eq_nil_iff.mpr hhooks
  simp [deleteBatch, hres, hnil]

/-- C6, witness: a result reporting one key with no code and no message and
one key with both yields the defaulted pair for the first and the server
pair for the second, and nothing for unreported keys. -/
theorem c6_per_key_failure_witness :
    (deleteBatch
        ⟨fun _ _ => Except.ok
          { errors := [{ key := some "k1", code := none, message := none },
                       { key := some "k2", code := some "AccessDenied",
                         message := some "denied" }] }, 1000⟩ 0
        { bucket := some "A", mfa := none, requestPayer := "",
          objects := [{ key := some "k1", versionId := none },
                      { key := some "k2", versionId := none },
                      { key := some "k3", versionId := none }] } []).1 =
      [newError (GoErr.aws "DeleteBatchError" "failed to delete") (some "A") (some "k1"),
       newError (GoErr.aws "AccessDenied" "denied") (some "A") (some "k2")] := by
  have h := c6_per_key_failure
    ⟨fun _ _ => Except.ok
      { errors := [{ key := some "k1", code := none, message := none },
                   { key := some "k2", code := some "AccessDenied",
                     message := some "denied" }] }, 1000⟩ 0
    { bucket := some "A", mfa := none, requestPayer := "",
      objects := [{ key := some "k1", versionId := none },
                  { key := some "k2", versionId := none },
                  { key := some "k3", versionId := none }] } []
    { errors := [{ key := some "k1", code := none, message := none },
                 { key := some "k2", code := some "AccessDenied",
                   message := some "denied" }] }
    rfl (by intro o ho; simp at ho)
  exact h.trans (by decide)

/- ---------------------------------------------------------------------
   Claim C7: the returned composite error.
   --------------------------------------------------------------------- -/

/-- C7: Delete returns Go nil exactly when no Error was collected during
the run, and otherwise one BatchError with code "BatchedDeleteIncomplete"
holding all collected Errors in order; an iterator yielding no candidates
with nil Err() produces no DeleteObjects call and the nil return. -/
theorem c7_composite_return (d : BatchDelete) (cands : List BatchDeleteObject)
    (iterErr : Option GoErr) :
    ((BatchDelete.Delete d cands iterErr).ret =
      if (BatchDelete.Delete d cands iterErr).errs.isEmpty then none
      else some (NewBatchError "BatchedDeleteIncomplete"
        "some objects have failed to be deleted."
        (BatchDelete.Delete d cands iterErr).errs)) ∧
    BatchDelete.Delete d [] none =
      { ret := none, errs := [], events := [] } := by
  constructor
  · rw [Delete_ret]
    cases h : (BatchDelete.Delete d cands iterErr).errs with
    | nil => simp
    | cons a t => simp
  · rfl

/- ---------------------------------------------------------------------
   Claim C8: the iterator error.
   --------------------------------------------------------------------- -/

/-- C8: a non-nil iterator Err() adds exactly one extra Error, with nil
bucket and nil key, between the errors of the loop-flushed batches and
those of the final flush; the event trace (all calls and hooks, including
the execution of the still-open partial batch) is identical to the run
without the iterator error, and the errors already collected from prior
batches are unchanged. -/
theorem c8_iterator_error (d : BatchDelete) (cands : List BatchDeleteObject)
    (e : GoErr) :
    (BatchDelete.Delete d cands (some e)).events =
      (BatchDelete.Delete d cands none).events ∧
    ∃ pre post,
      (BatchDelete.Delete d cands none).errs = pre ++ post ∧
      (BatchDelete.Delete d cands (some e)).errs =
        pre ++ newError e none none :: post := by
  refine ⟨by rw [Delete_events, Delete_events], ?_⟩
  refine ⟨batchErrsFrom d 0 (assemble d.batchSize cands [] none).1,
    batchErrsFrom d (assemble d.batchSize cands [] none).1.length
      (finalCalls (assemble d.batchSize cands [] none).2.1
        (assemble d.batchSize cands [] none).2.2), ?_, ?_⟩
  · rw [Delete_errs]
    simp [iterErrList]
  · rw [Delete_errs]
    simp [iterErrList]

/- ---------------------------------------------------------------------
   Claim C10: the constructor's batch size.
   --------------------------------------------------------------------- -/

/-- C10: NewBatchDeleteWithClient sets BatchSize to DefaultBatchSize (1000)
exactly when its batchSize argument is -1, and to the argument verbatim
otherwise (including 0 and negatives other than -1); under a non-positive
BatchSize the per-call size bound is never reached, so a non-empty
uniform-parity run is flushed as one single unbounded DeleteObjects call
holding every candidate. -/
theorem c10_constructor_batch_size :
    (∀ (c : Client) (n : Int),
      (NewBatchDeleteWithClient c n).batchSize =
        if n = -1 then DefaultBatchSize else n) ∧
    (∀ (c : Client) (bs : Int) (cands : List BatchDeleteObject)
        (b m : Option String) (p : String),
      bs ≤ 0 → cands ≠ [] →
      (∀ o ∈ cands, o.object.bucket = b ∧ o.object.mfa = m ∧
        o.object.requestPayer = p) →
      eventCalls (BatchDelete.Delete ⟨c, bs⟩ cands none).events =
        [(uInput b m p cands, cands)]) := by
  constructor
  · intro c n
    by_cases h : n = -1
    · simp [NewBatchDeleteWithClient, h]
    · simp [NewBatchDeleteWithClient, h]
  · intro c bs cands b m p hbs hne hu
    cases cands with
    | nil => exact absurd rfl hne
    | cons o rest =>
      obtain ⟨hob, hom, hop⟩ := hu o (by simp)
      have hrest : ∀ o' ∈ rest, o'.object.bucket = b ∧ o'.object.mfa = m ∧
          o'.object.requestPayer = p := fun o' h' => hu o' (by simp [h'])
      have hstep := deleteStep_none bs [] o
      rw [seed_eq_uInput b m p o hob hom hop] at hstep
      rw [if_neg (by omega : ¬(1 : Int) = bs)] at hstep
      rw [Delete_events, eventCalls_batchEventsFrom]
      show callsFromState bs (o :: rest) [] none = _
      rw [callsFromState_cons_skip rest hstep]
      rw [callsFromState]
      simp only [List.nil_append]
      rw [assemble_nonpos_uniform bs hbs b m p rest [o] hrest]
      simp [finalCalls, uInput]

/-- C10, witness: -1 selects the default 1000, a positive value and zero
are taken verbatim, and with BatchSize 0 a two-candidate uniform run is
flushed as one call holding both candidates. -/
theorem c10_constructor_batch_size_witness :
    (NewBatchDeleteWithClient okClient (-1)).batchSize = DefaultBatchSize ∧
    (NewBatchDeleteWithClient okClient 7).batchSize = 7 ∧
    (NewBatchDeleteWithClient okClient 0).batchSize = 0 ∧
    eventCalls (BatchDelete.Delete ⟨okClient, 0⟩
        [mkCand "A" "k1", mkCand "A" "k2"] none).events =
      [(uInput (some "A") none "" [mkCand "A" "k1", mkCand "A" "k2"],
        [mkCand "A" "k1", mkCand "A" "k2"])] := by
  refine ⟨?_, ?_, ?_, ?_⟩
  · rw [c10_constructor_batch_size.1]
    decide
  · rw [c10_constructor_batch_size.1]
    decide
  · rw [c10_constructor_batch_size.1]
    decide
  · exact c10_constructor_batch_size.2 okClient 0
      [mkCand "A" "k1", mkCand "A" "k2"] (some "A") none ""
      (by decide) (by decide)
      (by intro o ho; fin_cases ho <;> exact ⟨rfl, rfl, rfl⟩)

end Awsmod
